import Mathlib

/-!
Verification development for the agent orchestration core of the
tap-agentic repository: the routing function, the chat node's tool
binding, the message reducer, the history trimmer and the execution
loop, embedded shallowly in Lean, with the spec's claims settled as
theorems about the embedding.
-/

/-! ## Data model for the routing function (src/backend/agent/routing.py)

The source inspects messages duck-typed: a message is either a dict
(keys `tool_calls` and optionally `additional_kwargs`, itself a dict
with an optional `tool_calls` key) or an object with an optional
`tool_calls` attribute.  `none` models an absent key / a `None` value;
`some []` models a present but empty list (falsy in Python). -/

/-- A tool call request as the routing code sees it: a dict whose
`name` key may be absent (`call.get "name"` then yields `None`). -/
structure ToolCall where
  name : Option String
deriving DecidableEq, Repr

/-- A conversation message as `custom_tools_condition` inspects it:
either dict-shaped or object-shaped. -/
inductive PyMsg where
  | dict (toolCalls : Option (List ToolCall))
      (additionalKwargs : Option (Option (List ToolCall)))
  | obj (toolCalls : Option (List ToolCall))
deriving DecidableEq, Repr

/-- Extraction of the tool calls from the last message, exactly the
branch structure of routing.py lines 18-27: for a dict, read
`tool_calls`; if that is `None` and `additional_kwargs` is a key, read
`additional_kwargs.tool_calls`; for an object, read the `tool_calls`
attribute. -/
def PyMsg.getToolCalls : PyMsg → Option (List ToolCall)
  | .dict tc ak =>
      match tc with
      | some l => some l
      | none =>
          match ak with
          | some akTc => akTc
          | none => none
  | .obj tc => tc

/-- A frontend action descriptor from the copilotkit state entry; its
`name` key may be absent. -/
structure CopilotAction where
  name : Option String
deriving DecidableEq, Repr

/-- The `copilotkit` dict of the state: its `actions` key may be
absent. -/
structure Copilotkit where
  actions : Option (List CopilotAction)
deriving DecidableEq, Repr

/-- The `OverallState` of src/backend/agent/state.py as the routing
function reads it: the message list and the optional `copilotkit`
entry. -/
structure OverallState where
  messages : List PyMsg
  copilotkit : Option Copilotkit
deriving DecidableEq, Repr

/-- `state.get "copilotkit" with default empty dict, then .get
"actions" with default empty list` (routing.py line 30). -/
def OverallState.getActions (s : OverallState) : List CopilotAction :=
  match s.copilotkit with
  | none => []
  | some ck => ck.actions.getD []

/-- Return values of `custom_tools_condition`: the Literal type
`tools | END` of routing.py line 13. -/
inductive Route where
  | tools
  | END
deriving DecidableEq, Repr

/-- The list `[a.get "name" for a in actions]` of routing.py lines
29-31. -/
def OverallState.actionNames (s : OverallState) : List (Option String) :=
  (s.getActions).map (fun a => a.name)

/-- `custom_tools_condition` of src/backend/agent/routing.py lines
13-36.  `messages[-1] if messages else None` is `getLast?`; the
early-return `for` loop over the tool calls is `List.any`; the
truthiness test `if tool_calls` is the match on `some (c :: cs)`. -/
def custom_tools_condition (state : OverallState) : Route :=
  let last : Option PyMsg := state.messages.getLast?
  let toolCalls : Option (List ToolCall) :=
    match last with
    | none => none
    | some m => m.getToolCalls
  match toolCalls with
  | some (c :: cs) =>
      if (c :: cs).any (fun call => state.actionNames.contains call.name) then
        Route.END
      else
        Route.tools
  | _ => Route.END

/-! ## The wired routing function (spec section 4.5)

graph.py line 81 wires `workflow_tools_condition`, imported from
agent.routing, as the conditional edge after the chat node; that
function is absent from src/ (routing.py holds only the
`custom_tools_condition` variant, which has no workflow branch), so it
is modelled from the spec. -/

/-- Return values of the wired routing function: the three conditional
edge targets `tools`, `workflow` and END. -/
inductive WRoute where
  | tools
  | workflow
  | END
deriving DecidableEq, Repr

/-- Modelled from the spec: `workflow_tools_condition`, imported by
src/backend/agent/graph.py from agent.routing but missing from src/.
Spec section 4.5: (1) no tool calls, Done; (3) any call naming a
caller-supplied descriptor, Done, taking precedence; (4) else a call
naming the designated workflow-trigger tool `start_shopping_workflow`
(src/backend/agent/tools/workflow.py), HandingOff to the workflow
subgraph; (5) else Dispatching to the tools node.  Tool calls are read
off the last message the same way the sibling `custom_tools_condition`
reads them. -/
def workflow_tools_condition (state : OverallState) : WRoute :=
  let last : Option PyMsg := state.messages.getLast?
  let toolCalls : Option (List ToolCall) :=
    match last with
    | none => none
    | some m => m.getToolCalls
  match toolCalls with
  | some (c :: cs) =>
      if (c :: cs).any (fun call => state.actionNames.contains call.name) then
        WRoute.END
      else if (c :: cs).any
          (fun call => call.name = some "start_shopping_workflow") then
        WRoute.workflow
      else
        WRoute.tools
  | _ => WRoute.END

/-! ## Spec-level messages

The trimmer, the reducer and the execution loop operate on messages at
the granularity of the spec's data model (section 3): a role, an
optional id (used by the reducer) and the names of the carried tool
calls. -/

/-- Message roles of the spec's data model. -/
inductive Role where
  | system
  | human
  | assistant
  | tool
deriving DecidableEq, Repr

/-- A conversation message at the spec's granularity. -/
structure SMessage where
  role : Role
  mid : Option String
  toolCallNames : List String
deriving DecidableEq, Repr

/-! ## Chat node and tool binding (src/backend/agent/nodes/chat.py) -/

/-- A chat model together with the tool set currently bound to it.
`bind_tools` on an already-bound model forwards to the underlying raw
model (langchain's RunnableBinding attribute forwarding), so rebinding
replaces the bound tool set with exactly the given list. -/
structure BoundModel (τ : Type) where
  tools : List τ
deriving DecidableEq, Repr

/-- `model.bind_tools(tools)`: a fresh binding of the raw model with
exactly `ts` (see `BoundModel`). -/
def BoundModel.bind_tools {τ : Type} (_m : BoundModel τ) (ts : List τ) :
    BoundModel τ :=
  { tools := ts }

/-- The `ChatNode` of src/backend/agent/nodes/chat.py: the
backend-registered tools kept from construction (line 42) and the
long-lived bound model object (line 43), which `__call__`
reassigns. -/
structure ChatNode (τ : Type) where
  backend_tools : List τ
  model_with_tools : BoundModel τ
deriving DecidableEq, Repr

/-- One execution of `ChatNode.__call__` (lines 54-82): read the
frontend actions of this turn's state, compute
`tools = backend_tools + frontend_actions`, reassign
`self.model_with_tools` to the rebinding, invoke the opaque model
collaborator (`generate`), and return the delta
`messages := [response]` together with the mutated node. -/
def ChatNode.call {τ : Type} (node : ChatNode τ) (frontend_actions : List τ)
    (generate : BoundModel τ → SMessage) : ChatNode τ × List SMessage :=
  let tools := node.backend_tools ++ frontend_actions
  let bound := node.model_with_tools.bind_tools tools
  ({ node with model_with_tools := bound }, [generate bound])

/-! ## The messages reducer (src/backend/agent/state.py line 22) -/

/-- Modelled from the spec: the `add_messages` reducer annotated on
`OverallState.messages` in src/backend/agent/state.py is defined in the
external langgraph library, not under src/.  Per its documented
behaviour, matching the spec's reducer contract (section 4.1, "append
new entries, preserve existing ones unchanged"), one incoming message
replaces the existing message carrying the same id and is appended
otherwise. -/
def upsertMessage (acc : List SMessage) (m : SMessage) : List SMessage :=
  match m.mid with
  | none => acc ++ [m]
  | some i =>
      if acc.any (fun x => x.mid = some i) then
        acc.map (fun x => if x.mid = some i then m else x)
      else
        acc ++ [m]

/-- Modelled from the spec: the full `add_messages` reducer, folding
`upsertMessage` over the incoming delta. -/
def add_messages (old new : List SMessage) : List SMessage :=
  new.foldl upsertMessage old

/-! ## The history trimmer (spec section 4.2)

src/backend/agent/nodes/chat.py lines 44-52 configure the trimmer
(budget, keep-last strategy, include the system message, no partial
messages, start on human); the trimming algorithm itself is the
external langchain `trim_messages`, not under src/, so the
HistoryTrimmer component is modelled from the spec. -/

/-- The trimmer's error condition (spec sections 4.2 and 7). -/
inductive TrimError where
  | budgetExceeded
deriving DecidableEq, Repr

/-- Total token cost of a message list under the model collaborator's
opaque per-message cost function. -/
def msgsCost (cost : SMessage → Nat) (l : List SMessage) : Nat :=
  (l.map cost).sum

/-- Whether a message carries the `system` role. -/
def isSystem (m : SMessage) : Bool :=
  decide (m.role = Role.system)

/-- The single most recent required exchange: the shortest suffix of
the (system-free) history that starts on a `human` message, i.e. the
last human message together with everything after it. -/
def mostRecentExchange : List SMessage → Option (List SMessage)
  | [] => none
  | m :: rest =>
      match mostRecentExchange rest with
      | some e => some e
      | none =>
          if m.role = Role.human then some (m :: rest) else none

/-- The window kept by the trimmer: scanning suffixes of the
system-free history from the longest down, the first one that starts
on a `human` boundary and fits the budget alongside the retained
system messages. -/
def findWindow (cost : SMessage → Nat) (budget sysCost : Nat) :
    List SMessage → Option (List SMessage)
  | [] => none
  | m :: rest =>
      if m.role = Role.human ∧
          sysCost + msgsCost cost (m :: rest) ≤ budget then
        some (m :: rest)
      else
        findWindow cost budget sysCost rest

/-- Modelled from the spec: the HistoryTrimmer of section 4.2, whose
algorithm lives in the external langchain `trim_messages` rather than
under src/.  A history that already fits the budget is returned
unchanged; otherwise the system messages are always retained and the
longest human-starting suffix of the rest that still fits is kept,
whole messages only; if even the most recent required exchange does
not fit, the `BudgetExceeded` condition is surfaced instead of a
partially included exchange. -/
def trimHistory (cost : SMessage → Nat) (budget : Nat)
    (messages : List SMessage) : Except TrimError (List SMessage) :=
  if msgsCost cost messages ≤ budget then
    Except.ok messages
  else
    let sys := messages.filter (fun m => isSystem m)
    let rest := messages.filter (fun m => !isSystem m)
    match findWindow cost budget (msgsCost cost sys) rest with
    | some w => Except.ok (sys ++ w)
    | none => Except.error TrimError.budgetExceeded

/-! ## The execution loop (spec section 4.6)

graph.py lines 72-95 wire the ReAct loop (chat, tools, workflow nodes
and their edges); the driver that repeatedly steps the compiled graph,
and its recursion ceiling, live in the external langgraph runtime, not
under src/, so the ExecutionGraph driver is modelled from the spec. -/

/-- The graph's terminal reasons (spec section 6). -/
inductive TerminalReason where
  | answered
  | handedOffToWorkflow
  | maxStepsExceeded
deriving DecidableEq, Repr

/-- The routing decisions of the spec's state machine (sections 3
and 4.5). -/
inductive Decision where
  | dispatching
  | handingOff
  | done
deriving DecidableEq, Repr

/-- Modelled from the spec: the RoutingDecision of section 4.5 as a
pure function of the latest assistant message and the caller-supplied
tool names, used by the execution-loop model. -/
def specRoute (m : SMessage) (frontendNames : List String) : Decision :=
  if m.toolCallNames.isEmpty then
    Decision.done
  else if m.toolCallNames.any (fun n => frontendNames.contains n) then
    Decision.done
  else if m.toolCallNames.contains "start_shopping_workflow" then
    Decision.handingOff
  else
    Decision.dispatching

/-- Modelled from the spec: the ExecutionGraph driver of section 4.6,
which lives in the external langgraph runtime rather than under src/.
Each step invokes the opaque model collaborator, appends its response,
and routes: Done and HandingOff terminate; Dispatching appends the
dispatch results and loops, unless the ceiling of consecutive
dispatch transitions is exhausted, in which case the loop forces
termination with `MaxStepsExceeded`.  `remaining` counts the dispatch
transitions still allowed. -/
def driveLoop (generate : List SMessage → SMessage)
    (dispatch : SMessage → List SMessage) (frontendNames : List String) :
    Nat → List SMessage → List SMessage × TerminalReason
  | 0, msgs =>
      let response := generate msgs
      (msgs ++ [response],
        match specRoute response frontendNames with
        | Decision.done => TerminalReason.answered
        | Decision.handingOff => TerminalReason.handedOffToWorkflow
        | Decision.dispatching => TerminalReason.maxStepsExceeded)
  | r + 1, msgs =>
      let response := generate msgs
      match specRoute response frontendNames with
      | Decision.done =>
          (msgs ++ [response], TerminalReason.answered)
      | Decision.handingOff =>
          (msgs ++ [response], TerminalReason.handedOffToWorkflow)
      | Decision.dispatching =>
          driveLoop generate dispatch frontendNames r
            (msgs ++ [response] ++ dispatch response)

/-- The misbehaving model collaborator stub of the spec's loop-ceiling
scenario: every reasoning step returns a fresh backend tool call. -/
def stubGen : List SMessage → SMessage :=
  fun _ => ⟨Role.assistant, none, ["search"]⟩

/-- The dispatch stub: one `tool` result message per tool call of the
assistant message. -/
def stubDispatch : SMessage → List SMessage :=
  fun m => m.toolCallNames.map (fun _ => ⟨Role.tool, none, []⟩)

/-- The number of dispatch rounds recorded in a history: each round
of the stub appends exactly one `tool` message. -/
def toolMsgCount (l : List SMessage) : Nat :=
  (l.filter (fun m => decide (m.role = Role.tool))).length

/-! ## Theorems settling the claims -/

/-- C1: for every state whose latest assistant message carries tool
calls, none of which names a caller-supplied descriptor, and at least
one of which names the designated workflow-trigger tool
`start_shopping_workflow`, the wired routing function returns the
workflow (HandingOff) decision, diverting execution to the sub-workflow
graph instead of the tools node. -/
theorem routing_workflow_trigger_hands_off (state : OverallState)
    (m : PyMsg) (l : List ToolCall)
    (hlast : state.messages.getLast? = some m)
    (htc : m.getToolCalls = some l)
    (hne : l ≠ [])
    (hnofront : ∀ c ∈ l, state.actionNames.contains c.name = false)
    (hwf : ∃ c ∈ l, c.name = some "start_shopping_workflow") :
    workflow_tools_condition state = WRoute.workflow := by
  unfold workflow_tools_condition
  rw [hlast]
  simp only [htc]
  cases l with
  | nil => exact absurd rfl hne
  | cons c0 cs =>
      have hfront : ((c0 :: cs).any
          (fun call => state.actionNames.contains call.name)) = false := by
        rw [List.any_eq_false]
        intro c hc
        simpa using hnofront c hc
      have hany : ((c0 :: cs).any
          (fun call => call.name = some "start_shopping_workflow")) = true := by
        rw [List.any_eq_true]
        obtain ⟨c, hc, hname⟩ := hwf
        exact ⟨c, hc, by simp [hname]⟩
      simp only [hfront, hany]
      simp

/-- Witness for C1 at a concrete state: one backend call plus the
workflow trigger, no caller-supplied actions. -/
theorem routing_workflow_trigger_hands_off_witness :
    workflow_tools_condition
      { messages := [PyMsg.obj (some [⟨some "search"⟩,
          ⟨some "start_shopping_workflow"⟩])],
        copilotkit := none } = WRoute.workflow :=
  routing_workflow_trigger_hands_off
    { messages := [PyMsg.obj (some [⟨some "search"⟩,
        ⟨some "start_shopping_workflow"⟩])],
      copilotkit := none }
    (PyMsg.obj (some [⟨some "search"⟩, ⟨some "start_shopping_workflow"⟩]))
    [⟨some "search"⟩, ⟨some "start_shopping_workflow"⟩]
    (by rfl) (by rfl) (by decide) (by decide) (by decide)

/-- C2: if any tool call of the latest message names a caller-supplied
(frontend) descriptor, `custom_tools_condition` returns END, whatever
the other calls in the same message name. -/
theorem routing_frontend_call_ends_turn (state : OverallState)
    (m : PyMsg) (l : List ToolCall) (c : ToolCall)
    (hlast : state.messages.getLast? = some m)
    (htc : m.getToolCalls = some l)
    (hc : c ∈ l)
    (hfront : state.actionNames.contains c.name = true) :
    custom_tools_condition state = Route.END := by
  unfold custom_tools_condition
  rw [hlast]
  simp only [htc]
  cases l with
  | nil => exact absurd hc (List.not_mem_nil c)
  | cons c0 cs =>
      have hany : ((c0 :: cs).any
          (fun call => state.actionNames.contains call.name)) = true := by
        rw [List.any_eq_true]
        exact ⟨c, hc, hfront⟩
      simp only [hany]
      simp

/-- Witness for C2: the spec's tie-break scenario, a call matching the
caller-supplied descriptor `frontend_x` next to a backend call
`search` (and even the workflow trigger), routed END. -/
theorem routing_frontend_call_ends_turn_witness :
    custom_tools_condition
      { messages := [PyMsg.dict
          (some [⟨some "frontend_x"⟩, ⟨some "search"⟩,
            ⟨some "start_shopping_workflow"⟩]) none],
        copilotkit := some ⟨some [⟨some "frontend_x"⟩]⟩ } = Route.END :=
  routing_frontend_call_ends_turn
    { messages := [PyMsg.dict
        (some [⟨some "frontend_x"⟩, ⟨some "search"⟩,
          ⟨some "start_shopping_workflow"⟩]) none],
      copilotkit := some ⟨some [⟨some "frontend_x"⟩]⟩ }
    (PyMsg.dict (some [⟨some "frontend_x"⟩, ⟨some "search"⟩,
      ⟨some "start_shopping_workflow"⟩]) none)
    [⟨some "frontend_x"⟩, ⟨some "search"⟩, ⟨some "start_shopping_workflow"⟩]
    ⟨some "frontend_x"⟩
    (by rfl) (by rfl) (by decide) (by decide)

/-- C9: a latest message carrying no tool calls (the field absent,
None, or an empty list) routes to END, so the tools node does not run
that turn. -/
theorem routing_no_tool_calls_ends_turn (state : OverallState)
    (m : PyMsg)
    (hlast : state.messages.getLast? = some m)
    (htc : m.getToolCalls = none ∨ m.getToolCalls = some []) :
    custom_tools_condition state = Route.END := by
  unfold custom_tools_condition
  rw [hlast]
  rcases htc with h | h <;> simp only [h]

/-- Witness for C9 at a concrete state: an object-shaped message with
an empty tool-call list. -/
theorem routing_no_tool_calls_ends_turn_witness :
    custom_tools_condition
      { messages := [PyMsg.obj (some [])], copilotkit := none }
      = Route.END :=
  routing_no_tool_calls_ends_turn
    { messages := [PyMsg.obj (some [])], copilotkit := none }
    (PyMsg.obj (some [])) (by rfl) (Or.inr rfl)

/-- C10: an empty messages list routes to END for every copilotkit
entry; the last-message access is guarded (`messages[-1] if messages
else None`), so the empty conversation terminates rather than
raising. -/
theorem routing_empty_messages_ends_turn (ck : Option Copilotkit) :
    custom_tools_condition { messages := [], copilotkit := ck }
      = Route.END := by
  rfl

/-- C5: on every invocation of the chat node, the tool set bound to
the model is exactly the backend tools followed by this turn's
frontend actions; after a second invocation with another turn's
actions, the bound set is again backend tools plus that turn's
actions only, so nothing from the first turn is retained. -/
theorem chat_binds_backend_plus_turn_tools {τ : Type} (node : ChatNode τ)
    (f1 f2 : List τ) (gen1 gen2 : BoundModel τ → SMessage) :
    ((node.call f1 gen1).1).model_with_tools.tools
        = node.backend_tools ++ f1 ∧
    (((node.call f1 gen1).1.call f2 gen2).1).model_with_tools.tools
        = node.backend_tools ++ f2 :=
  ⟨rfl, rfl⟩

/-- Appending or replacing one message never shortens the list. -/
theorem upsertMessage_length_le (acc : List SMessage) (m : SMessage) :
    acc.length ≤ (upsertMessage acc m).length := by
  unfold upsertMessage
  cases m.mid with
  | none => simp
  | some i =>
      by_cases h : acc.any (fun x => x.mid = some i)
      · simp [h]
      · simp [h]

/-- A message whose id matches no existing message is appended at the
end, leaving every existing entry in place. -/
theorem upsertMessage_fresh (old : List SMessage) (m : SMessage)
    (h : m.mid = none ∨ old.any (fun x => x.mid = m.mid) = false) :
    upsertMessage old m = old ++ [m] := by
  rcases hm : m.mid with _ | i
  · simp [upsertMessage, hm]
  · rcases h with h | h
    · exact absurd (hm ▸ h) (by simp)
    · rw [hm] at h
      simp [upsertMessage, hm, h]

/-- The reducer never shortens the message list, whatever the incoming
delta. -/
theorem add_messages_length_mono (new old : List SMessage) :
    old.length ≤ (add_messages old new).length := by
  induction new generalizing old with
  | nil => simp [add_messages]
  | cons m rest ih =>
      calc old.length ≤ (upsertMessage old m).length :=
            upsertMessage_length_le old m
        _ ≤ (add_messages (upsertMessage old m) rest).length :=
            ih (upsertMessage old m)
        _ = (add_messages old (m :: rest)).length := by
            simp [add_messages]

/-- C6: the conversation is append-only: the reducer never decreases
the length of `messages` for any delta; a fresh-id response delta is
merged by appending it after the unchanged existing messages; and one
execution of the chat node contributes a delta of exactly one
message. -/
theorem messages_append_only {τ : Type} (old new : List SMessage)
    (resp : SMessage) (node : ChatNode τ) (frontend : List τ)
    (gen : BoundModel τ → SMessage)
    (hfresh : resp.mid = none ∨
      old.any (fun x => x.mid = resp.mid) = false) :
    old.length ≤ (add_messages old new).length ∧
    add_messages old [resp] = old ++ [resp] ∧
    (node.call frontend gen).2.length = 1 := by
  refine ⟨add_messages_length_mono new old, ?_, rfl⟩
  show upsertMessage old resp = old ++ [resp]
  exact upsertMessage_fresh old resp hfresh

/-- Witness for C6 at a concrete history and a concrete chat node:
the reducer appends the fresh assistant response after the two
existing messages. -/
theorem messages_append_only_witness :
    ([⟨Role.system, some "s", []⟩, ⟨Role.human, some "1", []⟩]
        : List SMessage).length ≤
      (add_messages
        [⟨Role.system, some "s", []⟩, ⟨Role.human, some "1", []⟩]
        [⟨Role.assistant, some "2", []⟩]).length ∧
    add_messages
        [⟨Role.system, some "s", []⟩, ⟨Role.human, some "1", []⟩]
        [⟨Role.assistant, some "2", []⟩]
      = [⟨Role.system, some "s", []⟩, ⟨Role.human, some "1", []⟩,
          ⟨Role.assistant, some "2", []⟩] ∧
    ((ChatNode.call ⟨["search"], ⟨["search"]⟩⟩ []
        (fun _ => ⟨Role.assistant, some "2", []⟩)).2).length = 1 :=
  messages_append_only
    [⟨Role.system, some "s", []⟩, ⟨Role.human, some "1", []⟩]
    [⟨Role.assistant, some "2", []⟩]
    ⟨Role.assistant, some "2", []⟩
    (⟨["search"], ⟨["search"]⟩⟩ : ChatNode String) []
    (fun _ => ⟨Role.assistant, some "2", []⟩)
    (Or.inr (by decide))

/-- C7: a history whose total cost already fits the budget is returned
unchanged by the trimmer. -/
theorem trim_in_budget_identity (cost : SMessage → Nat) (budget : Nat)
    (messages : List SMessage)
    (h : msgsCost cost messages ≤ budget) :
    trimHistory cost budget messages = Except.ok messages := by
  unfold trimHistory
  rw [if_pos h]

/-- Witness for C7 at a concrete in-budget history. -/
theorem trim_in_budget_identity_witness :
    trimHistory (fun _ => 1) 10
        [⟨Role.system, none, []⟩, ⟨Role.human, none, []⟩]
      = Except.ok [⟨Role.system, none, []⟩, ⟨Role.human, none, []⟩] :=
  trim_in_budget_identity (fun _ => 1) 10
    [⟨Role.system, none, []⟩, ⟨Role.human, none, []⟩] (by decide)

/-- C8: whenever the trimmer produces a window, every system message
of the history is in it, wherever it sat and however small the window
became. -/
theorem trim_retains_system (cost : SMessage → Nat) (budget : Nat)
    (messages out : List SMessage) (m : SMessage)
    (hok : trimHistory cost budget messages = Except.ok out)
    (hm : m ∈ messages) (hsys : m.role = Role.system) :
    m ∈ out := by
  simp only [trimHistory] at hok
  by_cases hfit : msgsCost cost messages ≤ budget
  · rw [if_pos hfit] at hok
    cases hok
    exact hm
  · rw [if_neg hfit] at hok
    cases hw : findWindow cost budget
        (msgsCost cost (messages.filter (fun x => isSystem x)))
        (messages.filter (fun x => !isSystem x)) with
    | none =>
        rw [hw] at hok
        simp at hok
    | some w =>
        rw [hw] at hok
        cases hok
        exact List.mem_append_left w
          (List.mem_filter.mpr ⟨hm, by simp [isSystem, hsys]⟩)

/-- Witness for C8: a history whose older exchange is trimmed away
still keeps the leading system message in the window. -/
theorem trim_retains_system_witness :
    (⟨Role.system, none, []⟩ : SMessage) ∈
      ([⟨Role.system, none, []⟩, ⟨Role.human, none, []⟩] : List SMessage) :=
  trim_retains_system (fun _ => 1) 10
    [⟨Role.system, none, []⟩, ⟨Role.human, none, []⟩]
    [⟨Role.system, none, []⟩, ⟨Role.human, none, []⟩]
    ⟨Role.system, none, []⟩ (by rfl) (by decide) (by decide)

/-- C3: against the misbehaving stub that always emits a fresh backend
tool call, the loop with ceiling N terminates with MaxStepsExceeded
and the final history records exactly N dispatch rounds. -/
theorem loop_ceiling_max_steps (N : Nat) (init : List SMessage) :
    (driveLoop stubGen stubDispatch [] N init).2
        = TerminalReason.maxStepsExceeded ∧
    toolMsgCount (driveLoop stubGen stubDispatch [] N init).1
        = toolMsgCount init + N := by
  induction N generalizing init with
  | zero =>
      refine ⟨rfl, ?_⟩
      show toolMsgCount (init ++ [⟨Role.assistant, none, ["search"]⟩])
        = toolMsgCount init + 0
      simp [toolMsgCount, List.filter_append]
  | succ r ih =>
      have hstep : driveLoop stubGen stubDispatch [] (r + 1) init
          = driveLoop stubGen stubDispatch [] r
              (init ++ [⟨Role.assistant, none, ["search"]⟩]
                ++ [⟨Role.tool, none, []⟩]) := rfl
      rw [hstep]
      rcases ih (init ++ [⟨Role.assistant, none, ["search"]⟩]
        ++ [⟨Role.tool, none, []⟩]) with ⟨h1, h2⟩
      refine ⟨h1, ?_⟩
      rw [h2]
      simp [toolMsgCount, List.filter_append]
      omega

/-- A suffix of a history costs no more than the history. -/
theorem msgsCost_suffix_le (cost : SMessage → Nat) {e s : List SMessage}
    (h : e <:+ s) : msgsCost cost e ≤ msgsCost cost s :=
  List.Sublist.sum_le_sum (List.Sublist.map cost h.sublist)
    (fun a _ => Nat.zero_le a)

/-- Without a most recent exchange, no suffix starts on a human
message. -/
theorem mostRecentExchange_none (l : List SMessage)
    (h : mostRecentExchange l = none) :
    ∀ m t, (m :: t) <:+ l → m.role ≠ Role.human := by
  induction l with
  | nil =>
      intro m t hsfx
      simp [List.suffix_nil] at hsfx
  | cons a l ih =>
      intro m t hsfx hm
      unfold mostRecentExchange at h
      cases hrec : mostRecentExchange l with
      | some e => rw [hrec] at h; simp at h
      | none =>
          rw [hrec] at h
          by_cases ha : a.role = Role.human
          · rw [if_pos ha] at h; simp at h
          · rcases List.suffix_cons_iff.mp hsfx with heq | hsfx2
            · cases heq; exact ha hm
            · exact ih hrec m t hsfx2 hm

/-- The most recent exchange is a suffix of its history. -/
theorem mostRecentExchange_suffix (l e : List SMessage)
    (h : mostRecentExchange l = some e) : e <:+ l := by
  induction l with
  | nil => simp [mostRecentExchange] at h
  | cons a l ih =>
      unfold mostRecentExchange at h
      cases hrec : mostRecentExchange l with
      | some e2 =>
          rw [hrec] at h
          obtain rfl := Option.some.inj h
          exact (ih hrec).trans (List.suffix_cons a l)
      | none =>
          rw [hrec] at h
          by_cases ha : a.role = Role.human
          · rw [if_pos ha] at h
            obtain rfl := Option.some.inj h
            exact List.suffix_refl _
          · rw [if_neg ha] at h; simp at h

/-- The most recent exchange is a suffix of every human-starting
suffix of the history. -/
theorem mostRecentExchange_min (l e : List SMessage)
    (h : mostRecentExchange l = some e) :
    ∀ m t, (m :: t) <:+ l → m.role = Role.human → e <:+ (m :: t) := by
  induction l with
  | nil => simp [mostRecentExchange] at h
  | cons a l ih =>
      intro m t hsfx hm
      unfold mostRecentExchange at h
      cases hrec : mostRecentExchange l with
      | some e2 =>
          rw [hrec] at h
          obtain rfl := Option.some.inj h
          rcases List.suffix_cons_iff.mp hsfx with heq | hsfx2
          · rw [heq]
            exact (mostRecentExchange_suffix l e2 hrec).trans
              (List.suffix_cons a l)
          · exact ih hrec m t hsfx2 hm
      | none =>
          rw [hrec] at h
          by_cases ha : a.role = Role.human
          · rw [if_pos ha] at h
            obtain rfl := Option.some.inj h
            rcases List.suffix_cons_iff.mp hsfx with heq | hsfx2
            · rw [heq]
            · exact absurd hm (mostRecentExchange_none l hrec m t hsfx2)
          · rw [if_neg ha] at h; simp at h

/-- If every human-starting suffix of the history exceeds the budget
next to the retained system cost, no window is found. -/
theorem findWindow_none (cost : SMessage → Nat) (budget sysCost : Nat)
    (l : List SMessage)
    (h : ∀ m t, (m :: t) <:+ l → m.role = Role.human →
      budget < sysCost + msgsCost cost (m :: t)) :
    findWindow cost budget sysCost l = none := by
  induction l with
  | nil => rfl
  | cons a l ih =>
      unfold findWindow
      have hcond : ¬ (a.role = Role.human ∧
          sysCost + msgsCost cost (a :: l) ≤ budget) := by
        rintro ⟨ha, hle⟩
        exact absurd hle (Nat.not_le.mpr (h a l (List.suffix_refl _) ha))
      rw [if_neg hcond]
      exact ih (fun m t hsfx hm => h m t (hsfx.trans (List.suffix_cons a l)) hm)

/-- The cost of a history splits over its system and non-system
parts. -/
theorem msgsCost_system_split (cost : SMessage → Nat) (l : List SMessage) :
    msgsCost cost (l.filter (fun m => isSystem m))
      + msgsCost cost (l.filter (fun m => !isSystem m))
    = msgsCost cost l := by
  induction l with
  | nil => rfl
  | cons a l ih =>
      cases h : isSystem a <;>
        simp [List.filter_cons, msgsCost, h] at ih ⊢ <;> omega

/-- C4: when even the single most recent required exchange (the
retained system messages plus the last human message and everything
after it) exceeds the budget, the trimmer surfaces BudgetExceeded
rather than a window with that exchange partially or wholly
dropped. -/
theorem trim_surfaces_budget_exceeded (cost : SMessage → Nat)
    (budget : Nat) (messages e : List SMessage)
    (hmost : mostRecentExchange (messages.filter (fun m => !isSystem m))
      = some e)
    (hexceed : budget <
      msgsCost cost (messages.filter (fun m => isSystem m))
        + msgsCost cost e) :
    trimHistory cost budget messages
      = Except.error TrimError.budgetExceeded := by
  have hsplit := msgsCost_system_split cost messages
  have hrest_ge : msgsCost cost e
      ≤ msgsCost cost (messages.filter (fun m => !isSystem m)) :=
    msgsCost_suffix_le cost (mostRecentExchange_suffix _ e hmost)
  have htotal : ¬ msgsCost cost messages ≤ budget := by omega
  have hw : findWindow cost budget
      (msgsCost cost (messages.filter (fun m => isSystem m)))
      (messages.filter (fun m => !isSystem m)) = none := by
    apply findWindow_none
    intro m t hsfx hm
    have he_le : msgsCost cost e ≤ msgsCost cost (m :: t) :=
      msgsCost_suffix_le cost (mostRecentExchange_min _ e hmost m t hsfx hm)
    omega
  simp only [trimHistory]
  rw [if_neg htotal, hw]

/-- Witness for C4: a uniform-cost history of one system message and
one human+assistant+tool exchange against a budget smaller than the
exchange. -/
theorem trim_surfaces_budget_exceeded_witness :
    trimHistory (fun _ => 2) 3
        [⟨Role.system, none, []⟩, ⟨Role.human, none, []⟩,
          ⟨Role.assistant, none, ["search"]⟩, ⟨Role.tool, none, []⟩]
      = Except.error TrimError.budgetExceeded :=
  trim_surfaces_budget_exceeded (fun _ => 2) 3
    [⟨Role.system, none, []⟩, ⟨Role.human, none, []⟩,
      ⟨Role.assistant, none, ["search"]⟩, ⟨Role.tool, none, []⟩]
    [⟨Role.human, none, []⟩, ⟨Role.assistant, none, ["search"]⟩,
      ⟨Role.tool, none, []⟩]
    (by rfl) (by decide)
